import Mathlib

/-!
# Verification of the Grace finite-state-machine engine

A shallow embedding of the `FiniteStateMachine` / `State` / `Transition`
classes of the repository (the spec's core component), with theorems settling
the spec's claims about it.

Modelling notes:
* JavaScript `State` objects have identity: the machine's registry maps names
  to object references, `currentState` holds a reference, and `Transition.toState`
  captures a reference at `.to(...)` time. We model the object heap as
  `objs : List State` and references as indices into it; the registry maps
  names to indices.
* The property bag is an insertion-ordered association list, mirroring a
  JavaScript object; guards are opaque `Bag → Bool` functions, as in the source.
* Thrown exceptions are modelled by an error component in each operation's
  result. A JavaScript exception does not roll back mutations already made,
  so mutators return `FiniteStateMachine × Option FsmError`: the machine state
  after the call (including partial mutations made before a throw) together
  with the exception, if any. Pure queries return `Except FsmError α`.
* `getState` throws the string `State ... not found`; the spec names this
  `UnknownStateError`. Dereferencing `this.currentState` when it is `null`
  throws a TypeError; the spec names this `NoCurrentStateError`.
-/

namespace Grace

/-- A JavaScript value as used in the property bag (booleans, numbers, strings). -/
inductive Val where
  | bool (b : Bool)
  | num (n : Int)
  | str (s : String)
deriving DecidableEq, Repr

/-- The property bag: an insertion-ordered association list, as a JS object. -/
abbrev Bag := List (String × Val)

/-- Read `values[key]`: first binding of `key`, if any. -/
def bagGet : Bag → String → Option Val
  | [], _ => none
  | p :: ps, k => if p.1 == k then some p.2 else bagGet ps k

/-- Write `values[key] = v`: overwrite in place if present, else append (JS object
insertion-order semantics). -/
def bagSet : Bag → String → Val → Bag
  | [], k, v => [(k, v)]
  | p :: ps, k, v => if p.1 == k then (k, v) :: ps else p :: bagSet ps k v

/-- Registry lookup by state name (`this._states[statename]`). -/
def lookupReg : List (String × Nat) → String → Option Nat
  | [], _ => none
  | p :: ps, n => if p.1 == n then some p.2 else lookupReg ps n

/-- Registry update (`this._states[stateName] = ...`). -/
def regSet : List (String × Nat) → String → Nat → List (String × Nat)
  | [], n, i => [(n, i)]
  | p :: ps, n, i => if p.1 == n then (n, i) :: ps else p :: regSet ps n i

/-- Replace the element at an index, if in range. -/
def modifyAt (f : α → α) : Nat → List α → List α
  | _, [] => []
  | 0, a :: as => f a :: as
  | n + 1, a :: as => a :: modifyAt f n as

/-- The `Transition` class: a guard over the bag, plus origin and destination
state references (object indices), both initially `null`. -/
structure Transition where
  validation : Bag → Bool
  fromState : Option Nat
  toState : Option Nat

/-- The `State` class: a name and the ordered list of outbound transitions. -/
structure State where
  name : String
  transitions : List Transition

/-- The errors the source can throw: `getState`'s `State ... not found`
(spec: `UnknownStateError`) and dereferencing a `null` `currentState`
(spec: `NoCurrentStateError`). -/
inductive FsmError where
  | unknownState (name : String)
  | noCurrentState
deriving DecidableEq, Repr

/-- The `FiniteStateMachine` class. `objs` is the heap of `State` objects
(a reference is an index into it); `states` is the name → reference registry;
`currentState` is a reference or `null`. -/
structure FiniteStateMachine where
  states : List (String × Nat)
  objs : List State
  values : Bag
  currentState : Option Nat

/-- The constructor: empty registry, empty bag, no current state. -/
def initFSM : FiniteStateMachine := ⟨[], [], [], none⟩

/-- Dereference a state-object index. -/
def getObj (m : FiniteStateMachine) (id : Nat) : State :=
  m.objs.getD id ⟨"", []⟩

/-- Method `getState(statename)`: registry lookup, throwing if the name is absent. -/
def getState (m : FiniteStateMachine) (n : String) : Except FsmError Nat :=
  match lookupReg m.states n with
  | some id => .ok id
  | none => .error (.unknownState n)

/-- Method `addState(stateName)`: registers a fresh `State` object under the name
(overwriting any previous binding of that name). -/
def addState (m : FiniteStateMachine) (n : String) : FiniteStateMachine :=
  { m with
    states := regSet m.states n m.objs.length
    objs := m.objs ++ [⟨n, []⟩] }

/-- Method `setCurrentState(stateName)`: point `currentState` at the registry's
object for the name; on an unknown name the machine is unchanged. -/
def setCurrentState (m : FiniteStateMachine) (n : String) :
    FiniteStateMachine × Option FsmError :=
  match getState m n with
  | .ok id => ({ m with currentState := some id }, none)
  | .error e => (m, some e)

/-- Getter `currentStateName`: `this.currentState.name`. -/
def currentStateName (m : FiniteStateMachine) : Except FsmError String :=
  match m.currentState with
  | some id => .ok (getObj m id).name
  | none => .error .noCurrentState

/-- Method `State.checkForTransitions`, on the transition list: return the first
transition whose guard holds on the bag — or rather its `toState`, which may
itself be `null` for a half-built transition, in which case the scan still
stops there. -/
def checkForTransitions (values : Bag) : List Transition → Option Nat
  | [] => none
  | t :: ts => if t.validation values then t.toState else checkForTransitions values ts

/-- Method `updateInternalState()`: run one evaluation pass on the current state's
transitions; on a truthy result, `setCurrentState(nwState.name)`. -/
def updateInternalState (m : FiniteStateMachine) :
    FiniteStateMachine × Option FsmError :=
  match m.currentState with
  | none => (m, some .noCurrentState)
  | some id =>
    match checkForTransitions m.values (getObj m id).transitions with
    | none => (m, none)
    | some dest => setCurrentState m (getObj m dest).name

/-- Method `setProperty(key, value)`: one bag write, then one evaluation pass. -/
def setProperty (m : FiniteStateMachine) (k : String) (v : Val) :
    FiniteStateMachine × Option FsmError :=
  updateInternalState { m with values := bagSet m.values k v }

/-- Method `setProperties(objects)`: write every entry into the bag, then one
evaluation pass. -/
def setProperties (m : FiniteStateMachine) (kvs : List (String × Val)) :
    FiniteStateMachine × Option FsmError :=
  updateInternalState
    (kvs.foldl (fun m p => { m with values := bagSet m.values p.1 p.2 }) m)

/-- Mutate the transition referenced by (origin object, index in its list). -/
def modifyTrans (m : FiniteStateMachine) (r : Nat × Nat) (f : Transition → Transition) :
    FiniteStateMachine :=
  m.objs.set r.1 { getObj m r.1 with
    transitions := modifyAt f r.2 (getObj m r.1).transitions } |>
    fun objs => { m with objs := objs }

/-- Method `from(stateName)`: build a `Transition` with the default always-true guard
and `null` destination, set its origin, and append it to the origin state's
transition list immediately. Returns the builder as a reference
(origin object index, position in its transition list). -/
def from' (m : FiniteStateMachine) (n : String) :
    FiniteStateMachine × Except FsmError (Nat × Nat) :=
  match getState m n with
  | .error e => (m, .error e)
  | .ok oid =>
    let t : Transition := ⟨fun _ => true, some oid, none⟩
    ({ m with objs := m.objs.set oid { getObj m oid with
        transitions := (getObj m oid).transitions ++ [t] } },
     .ok (oid, (getObj m oid).transitions.length))

/-- Method `Transition.to(state)`: resolve the destination name against the registry
and bind it; on an unknown name the transition (and machine) are unchanged. -/
def to' (m : FiniteStateMachine) (r : Nat × Nat) (n : String) :
    FiniteStateMachine × Option FsmError :=
  match getState m n with
  | .error e => (m, some e)
  | .ok did => (modifyTrans m r (fun t => { t with toState := some did }), none)

/-- Method `Transition.when(validator)`: replace the guard. -/
def when (m : FiniteStateMachine) (r : Nat × Nat) (g : Bag → Bool) :
    FiniteStateMachine :=
  modifyTrans m r (fun t => { t with validation := g })

/-- Method `is(stateName)`: `this.currentState.name === stateName`. -/
def is (m : FiniteStateMachine) (n : String) : Except FsmError Bool :=
  match m.currentState with
  | some id => .ok ((getObj m id).name == n)
  | none => .error .noCurrentState

/-- Method `isOneOf(...stateNames)`: `stateNames.some(x => this.is(x))`
(short-circuiting, so an empty list returns `false` even with no current
state). -/
def isOneOf (m : FiniteStateMachine) : List String → Except FsmError Bool
  | [] => .ok false
  | n :: ns =>
    match is m n with
    | .error e => .error e
    | .ok true => .ok true
    | .ok false => isOneOf m ns

/-! ## Helper lemmas about lists, bags and the registry -/

theorem getD_append_left (l l' : List α) (i : Nat) (d : α) (h : i < l.length) :
    (l ++ l').getD i d = l.getD i d := by
  induction l generalizing i with
  | nil => simp at h
  | cons a as ih =>
    cases i with
    | zero => rfl
    | succ n => simpa [List.getD] using ih n (by simpa using h)

theorem getD_append_self (l : List α) (x : α) (d : α) :
    (l ++ [x]).getD l.length d = x := by
  induction l with
  | nil => rfl
  | cons a as ih => simp [List.getD, ih]

theorem getD_set_self (l : List α) (i : Nat) (x d : α) (h : i < l.length) :
    (l.set i x).getD i d = x := by
  induction l generalizing i with
  | nil => simp at h
  | cons a as ih =>
    cases i with
    | zero => rfl
    | succ n => simpa [List.getD] using ih n (by simpa using h)

theorem getD_set_ne (l : List α) (i j : Nat) (x d : α) (h : i ≠ j) :
    (l.set i x).getD j d = l.getD j d := by
  induction l generalizing i j with
  | nil => rfl
  | cons a as ih =>
    cases i with
    | zero => cases j with
      | zero => exact absurd rfl h
      | succ n => rfl
    | succ n =>
      cases j with
      | zero => rfl
      | succ k => simpa [List.getD] using ih n k (fun e => h (by omega))

theorem modifyAt_append_self (f : α → α) (l : List α) (x : α) :
    modifyAt f l.length (l ++ [x]) = l ++ [f x] := by
  induction l with
  | nil => rfl
  | cons a as ih => simpa [modifyAt] using ih

theorem length_modifyAt (f : α → α) (i : Nat) (l : List α) :
    (modifyAt f i l).length = l.length := by
  induction l generalizing i with
  | nil => cases i <;> rfl
  | cons a as ih => cases i with
    | zero => simp [modifyAt]
    | succ n => simpa [modifyAt] using ih n

theorem bagGet_bagSet_self (b : Bag) (k : String) (v : Val) :
    bagGet (bagSet b k v) k = some v := by
  induction b with
  | nil => simp [bagSet, bagGet]
  | cons p ps ih =>
    by_cases h : p.1 = k
    · simp [bagSet, bagGet, h]
    · simp only [bagSet, bagGet]
      rw [if_neg (by simpa using h)]
      simpa [bagGet, h] using ih

theorem bagGet_bagSet_ne (b : Bag) (k k' : String) (v : Val) (h : k' ≠ k) :
    bagGet (bagSet b k' v) k = bagGet b k := by
  induction b with
  | nil => simp [bagSet, bagGet, h]
  | cons p ps ih =>
    by_cases hp : p.1 = k'
    · simp [bagSet, bagGet, hp, h, Ne.symm h]
    · simp only [bagSet, bagGet]
      rw [if_neg (by simpa using hp)]
      by_cases hk : p.1 = k
      · simp [bagGet, hk]
      · simpa [bagGet, hk] using ih

theorem lookupReg_regSet_self (r : List (String × Nat)) (n : String) (i : Nat) :
    lookupReg (regSet r n i) n = some i := by
  induction r with
  | nil => simp [regSet, lookupReg]
  | cons p ps ih =>
    by_cases h : p.1 = n
    · simp [regSet, lookupReg, h]
    · simp only [regSet, lookupReg]
      rw [if_neg (by simpa using h)]
      simpa [lookupReg, h] using ih

theorem lookupReg_regSet_ne (r : List (String × Nat)) (n n' : String) (i : Nat)
    (h : n' ≠ n) : lookupReg (regSet r n' i) n = lookupReg r n := by
  induction r with
  | nil => simp [regSet, lookupReg, h]
  | cons p ps ih =>
    by_cases hp : p.1 = n'
    · simp [regSet, lookupReg, hp, h, Ne.symm h]
    · simp only [regSet, lookupReg]
      rw [if_neg (by simpa using hp)]
      by_cases hk : p.1 = n
      · simp [lookupReg, hk]
      · simpa [lookupReg, hk] using ih

theorem lookupReg_mem (r : List (String × Nat)) (n : String) (i : Nat)
    (h : lookupReg r n = some i) : (n, i) ∈ r := by
  induction r with
  | nil => simp [lookupReg] at h
  | cons p ps ih =>
    by_cases hp : p.1 = n
    · simp only [lookupReg, if_pos (by simpa using hp), Option.some.injEq] at h
      cases p
      simp_all
    · simp only [lookupReg] at h
      rw [if_neg (by simpa using hp)] at h
      exact List.mem_cons_of_mem p (ih h)

theorem mem_regSet (r : List (String × Nat)) (n : String) (i : Nat) (p : String × Nat)
    (h : p ∈ regSet r n i) : p ∈ r ∨ p = (n, i) := by
  induction r with
  | nil => simpa [regSet] using h
  | cons q qs ih =>
    by_cases hq : q.1 = n
    · simp only [regSet] at h
      rw [if_pos (by simpa using hq)] at h
      rcases List.mem_cons.mp h with h | h
      · right; exact h
      · left; exact List.mem_cons_of_mem q h
    · simp only [regSet] at h
      rw [if_neg (by simpa using hq)] at h
      rcases List.mem_cons.mp h with h | h
      · left; exact h ▸ List.mem_cons_self q qs
      · rcases ih h with h' | h'
        · left; exact List.mem_cons_of_mem q h'
        · right; exact h'

/-! ## The evaluation pass -/

theorem checkForTransitions_first_match (v : Bag) (pre post : List Transition)
    (t : Transition) (hpre : ∀ t' ∈ pre, t'.validation v = false)
    (ht : t.validation v = true) :
    checkForTransitions v (pre ++ t :: post) = t.toState := by
  induction pre with
  | nil => simp [checkForTransitions, ht]
  | cons a as ih =>
    have ha : a.validation v = false := hpre a (List.mem_cons_self a as)
    simp only [List.cons_append, checkForTransitions, ha]
    exact ih (fun t' h => hpre t' (List.mem_cons_of_mem a h))

theorem checkForTransitions_no_match (v : Bag) (ts : List Transition)
    (h : ∀ t ∈ ts, t.validation v = false) :
    checkForTransitions v ts = none := by
  induction ts with
  | nil => rfl
  | cons a as ih =>
    have ha : a.validation v = false := h a (List.mem_cons_self a as)
    simp only [checkForTransitions, ha]
    exact ih (fun t ht => h t (List.mem_cons_of_mem a ht))

/-- One evaluation pass when the first matching transition is bound:
the machine moves to the registry's object for the destination's name. -/
theorem updateInternalState_fires (m : FiniteStateMachine) (aid bid rid : Nat)
    (B : String) (pre post : List Transition) (t : Transition)
    (hcur : m.currentState = some aid)
    (htrans : (getObj m aid).transitions = pre ++ t :: post)
    (hpre : ∀ t' ∈ pre, t'.validation m.values = false)
    (ht : t.validation m.values = true)
    (hto : t.toState = some bid)
    (hname : (getObj m bid).name = B)
    (hreg : lookupReg m.states B = some rid) :
    updateInternalState m = ({ m with currentState := some rid }, none) := by
  simp only [updateInternalState, hcur, htrans,
    checkForTransitions_first_match m.values pre post t hpre ht, hto, hname,
    setCurrentState, getState, hreg]

/-- One evaluation pass with no matching transition leaves the machine
unchanged and raises nothing. -/
theorem updateInternalState_no_match (m : FiniteStateMachine) (aid : Nat)
    (hcur : m.currentState = some aid)
    (h : ∀ t ∈ (getObj m aid).transitions, t.validation m.values = false) :
    updateInternalState m = (m, none) := by
  simp only [updateInternalState, hcur, checkForTransitions_no_match m.values _ h]

/-- An evaluation pass with no current state throws (the spec's
`NoCurrentStateError`) and changes nothing. -/
theorem updateInternalState_no_current (m : FiniteStateMachine)
    (hcur : m.currentState = none) :
    updateInternalState m = (m, some .noCurrentState) := by
  simp only [updateInternalState, hcur]

/-! ## Field-preservation lemmas for the operations -/

theorem getD_name_set (l : List State) (i j : Nat) (x : State)
    (hx : x.name = (l.getD i ⟨"", []⟩).name) :
    ((l.set i x).getD j ⟨"", []⟩).name = (l.getD j ⟨"", []⟩).name := by
  by_cases hij : i = j
  · subst hij
    by_cases hb : i < l.length
    · rw [getD_set_self _ _ _ _ hb]; exact hx
    · rw [List.set_eq_of_length_le (Nat.le_of_not_lt hb)]
  · rw [getD_set_ne _ _ _ _ _ hij]

theorem from'_fields (m : FiniteStateMachine) (n : String) :
    (from' m n).1.states = m.states ∧
    (from' m n).1.currentState = m.currentState ∧
    (from' m n).1.objs.length = m.objs.length ∧
    (∀ id, (getObj (from' m n).1 id).name = (getObj m id).name) := by
  unfold from' getState
  cases lookupReg m.states n with
  | none => exact ⟨rfl, rfl, rfl, fun _ => rfl⟩
  | some oid =>
    refine ⟨rfl, rfl, by simp, fun id => ?_⟩
    simp only [getObj]
    exact getD_name_set m.objs oid id _ rfl

theorem modifyTrans_fields (m : FiniteStateMachine) (r : Nat × Nat)
    (f : Transition → Transition) :
    (modifyTrans m r f).states = m.states ∧
    (modifyTrans m r f).currentState = m.currentState ∧
    (modifyTrans m r f).objs.length = m.objs.length ∧
    (∀ id, (getObj (modifyTrans m r f) id).name = (getObj m id).name) := by
  refine ⟨rfl, rfl, by simp [modifyTrans], fun id => ?_⟩
  simp only [modifyTrans, getObj]
  exact getD_name_set m.objs r.1 id _ rfl

theorem to'_fields (m : FiniteStateMachine) (r : Nat × Nat) (n : String) :
    (to' m r n).1.states = m.states ∧
    (to' m r n).1.currentState = m.currentState ∧
    (to' m r n).1.objs.length = m.objs.length ∧
    (∀ id, (getObj (to' m r n).1 id).name = (getObj m id).name) := by
  unfold to' getState
  cases lookupReg m.states n with
  | none => exact ⟨rfl, rfl, rfl, fun _ => rfl⟩
  | some did => exact modifyTrans_fields m r _

/-! ## Machine well-formedness -/

/-- Every registry entry references a live `State` object carrying the
entry's name. -/
def RegistryWF (m : FiniteStateMachine) : Prop :=
  ∀ p ∈ m.states, p.2 < m.objs.length ∧ (getObj m p.2).name = p.1

/-- The current state, when set, is exactly the object the registry stores
under that state's name. -/
def CurrentWF (m : FiniteStateMachine) : Prop :=
  ∀ id, m.currentState = some id →
    id < m.objs.length ∧ lookupReg m.states ((getObj m id).name) = some id

theorem registryWF_congr (m m' : FiniteStateMachine)
    (hs : m'.states = m.states) (hl : m'.objs.length = m.objs.length)
    (hn : ∀ id, (getObj m' id).name = (getObj m id).name)
    (h : RegistryWF m) : RegistryWF m' := by
  intro p hp
  rw [hs] at hp
  obtain ⟨h1, h2⟩ := h p hp
  exact ⟨hl ▸ h1, (hn p.2).trans h2⟩

theorem currentWF_congr (m m' : FiniteStateMachine)
    (hs : m'.states = m.states) (hc : m'.currentState = m.currentState)
    (hl : m'.objs.length = m.objs.length)
    (hn : ∀ id, (getObj m' id).name = (getObj m id).name)
    (h : CurrentWF m) : CurrentWF m' := by
  intro id hid
  rw [hc] at hid
  obtain ⟨h1, h2⟩ := h id hid
  refine ⟨hl ▸ h1, ?_⟩
  rw [hs, hn id]
  exact h2

theorem registryWF_addState (m : FiniteStateMachine) (n : String)
    (h : RegistryWF m) : RegistryWF (addState m n) := by
  intro p hp
  rcases mem_regSet _ _ _ _ hp with hm | hm
  · obtain ⟨h1, h2⟩ := h p hm
    refine ⟨by simp [addState]; omega, ?_⟩
    simp only [addState, getObj]
    rw [getD_append_left _ _ _ _ h1]
    exact h2
  · subst hm
    refine ⟨by simp [addState], ?_⟩
    simp only [addState, getObj]
    rw [getD_append_self]

theorem currentWF_addState (m : FiniteStateMachine) (n : String)
    (hcur : CurrentWF m) (hfresh : lookupReg m.states n = none) :
    CurrentWF (addState m n) := by
  intro id hid
  obtain ⟨h1, h2⟩ := hcur id hid
  refine ⟨by simp [addState]; omega, ?_⟩
  have hname : getObj (addState m n) id = getObj m id := by
    simp only [addState, getObj]
    rw [getD_append_left _ _ _ _ h1]
  rw [hname]
  have hne : n ≠ (getObj m id).name := by
    intro he
    rw [← he] at h2
    rw [h2] at hfresh
    cases hfresh
  show lookupReg (regSet m.states n m.objs.length) (getObj m id).name = some id
  rw [lookupReg_regSet_ne _ _ _ _ hne]
  exact h2

theorem wf_setCurrentState (m : FiniteStateMachine) (n : String)
    (hreg : RegistryWF m) (hcur : CurrentWF m) :
    RegistryWF (setCurrentState m n).1 ∧ CurrentWF (setCurrentState m n).1 := by
  unfold setCurrentState getState
  cases hl : lookupReg m.states n with
  | none => exact ⟨hreg, hcur⟩
  | some id =>
    refine ⟨fun p hp => hreg p hp, fun j hj => ?_⟩
    obtain rfl : id = j := by simpa using hj
    obtain ⟨h1, h2⟩ := hreg (n, id) (lookupReg_mem _ _ _ hl)
    refine ⟨h1, ?_⟩
    show lookupReg m.states (getObj m id).name = some id
    rw [h2]
    exact hl

theorem wf_updateInternalState (m : FiniteStateMachine)
    (hreg : RegistryWF m) (hcur : CurrentWF m) :
    RegistryWF (updateInternalState m).1 ∧ CurrentWF (updateInternalState m).1 := by
  cases hc : m.currentState with
  | none =>
    rw [updateInternalState_no_current m hc]
    exact ⟨hreg, hcur⟩
  | some id =>
    cases ht : checkForTransitions m.values (getObj m id).transitions with
    | none =>
      have he : updateInternalState m = (m, none) := by
        simp only [updateInternalState, hc, ht]
      rw [he]
      exact ⟨hreg, hcur⟩
    | some dest =>
      have he : updateInternalState m = setCurrentState m (getObj m dest).name := by
        simp only [updateInternalState, hc, ht]
      rw [he]
      exact wf_setCurrentState m _ hreg hcur

/-- Folding the per-entry bag writes of `setProperties` over the machine only
changes the bag, by the corresponding fold over the bag. -/
theorem setProperties_foldl (kvs : List (String × Val)) (m : FiniteStateMachine) :
    kvs.foldl (fun m p => { m with values := bagSet m.values p.1 p.2 }) m
      = { m with values := kvs.foldl (fun b p => bagSet b p.1 p.2) m.values } := by
  induction kvs generalizing m with
  | nil => rfl
  | cons p ps ih => simp only [List.foldl_cons]; rw [ih]

/-! ## Reachability -/

/-- Machine states reachable through the public interface, from the
constructor, by any sequence of calls (a call that throws still contributes
the mutations it made before throwing). -/
inductive Reachable : FiniteStateMachine → Prop where
  | init : Reachable initFSM
  | ofAddState (m : FiniteStateMachine) (n : String) :
      Reachable m → Reachable (addState m n)
  | ofSetCurrentState (m : FiniteStateMachine) (n : String) :
      Reachable m → Reachable (setCurrentState m n).1
  | ofFrom (m : FiniteStateMachine) (n : String) :
      Reachable m → Reachable (from' m n).1
  | ofTo (m : FiniteStateMachine) (r : Nat × Nat) (n : String) :
      Reachable m → Reachable (to' m r n).1
  | ofWhen (m : FiniteStateMachine) (r : Nat × Nat) (g : Bag → Bool) :
      Reachable m → Reachable (when m r g)
  | ofSetProperty (m : FiniteStateMachine) (k : String) (v : Val) :
      Reachable m → Reachable (setProperty m k v).1
  | ofSetProperties (m : FiniteStateMachine) (kvs : List (String × Val)) :
      Reachable m → Reachable (setProperties m kvs).1

/-- Reachability restricted to runs that never re-register an existing state
name (`addState` is only called with fresh names). -/
inductive ReachableD : FiniteStateMachine → Prop where
  | init : ReachableD initFSM
  | ofAddState (m : FiniteStateMachine) (n : String) :
      lookupReg m.states n = none → ReachableD m → ReachableD (addState m n)
  | ofSetCurrentState (m : FiniteStateMachine) (n : String) :
      ReachableD m → ReachableD (setCurrentState m n).1
  | ofFrom (m : FiniteStateMachine) (n : String) :
      ReachableD m → ReachableD (from' m n).1
  | ofTo (m : FiniteStateMachine) (r : Nat × Nat) (n : String) :
      ReachableD m → ReachableD (to' m r n).1
  | ofWhen (m : FiniteStateMachine) (r : Nat × Nat) (g : Bag → Bool) :
      ReachableD m → ReachableD (when m r g)
  | ofSetProperty (m : FiniteStateMachine) (k : String) (v : Val) :
      ReachableD m → ReachableD (setProperty m k v).1
  | ofSetProperties (m : FiniteStateMachine) (kvs : List (String × Val)) :
      ReachableD m → ReachableD (setProperties m kvs).1

/-- Reachability through runs on which `setCurrentState` is never called. -/
inductive ReachableNoSet : FiniteStateMachine → Prop where
  | init : ReachableNoSet initFSM
  | ofAddState (m : FiniteStateMachine) (n : String) :
      ReachableNoSet m → ReachableNoSet (addState m n)
  | ofFrom (m : FiniteStateMachine) (n : String) :
      ReachableNoSet m → ReachableNoSet (from' m n).1
  | ofTo (m : FiniteStateMachine) (r : Nat × Nat) (n : String) :
      ReachableNoSet m → ReachableNoSet (to' m r n).1
  | ofWhen (m : FiniteStateMachine) (r : Nat × Nat) (g : Bag → Bool) :
      ReachableNoSet m → ReachableNoSet (when m r g)
  | ofSetProperty (m : FiniteStateMachine) (k : String) (v : Val) :
      ReachableNoSet m → ReachableNoSet (setProperty m k v).1
  | ofSetProperties (m : FiniteStateMachine) (kvs : List (String × Val)) :
      ReachableNoSet m → ReachableNoSet (setProperties m kvs).1

/-- The well-formedness invariant holds in every reachable machine state of a
run that never re-registers a state name. -/
theorem reachD_wf (m : FiniteStateMachine) (h : ReachableD m) :
    RegistryWF m ∧ CurrentWF m := by
  induction h with
  | init =>
    constructor
    · intro p hp; cases hp
    · intro id hid; cases hid
  | ofAddState m n hf _ ih =>
    exact ⟨registryWF_addState m n ih.1, currentWF_addState m n ih.2 hf⟩
  | ofSetCurrentState m n _ ih => exact wf_setCurrentState m n ih.1 ih.2
  | ofFrom m n _ ih =>
    obtain ⟨hs, hc, hl, hn⟩ := from'_fields m n
    exact ⟨registryWF_congr m _ hs hl hn ih.1, currentWF_congr m _ hs hc hl hn ih.2⟩
  | ofTo m r n _ ih =>
    obtain ⟨hs, hc, hl, hn⟩ := to'_fields m r n
    exact ⟨registryWF_congr m _ hs hl hn ih.1, currentWF_congr m _ hs hc hl hn ih.2⟩
  | ofWhen m r g _ ih =>
    obtain ⟨hs, hc, hl, hn⟩ := modifyTrans_fields m r _
    exact ⟨registryWF_congr m _ hs hl hn ih.1, currentWF_congr m _ hs hc hl hn ih.2⟩
  | ofSetProperty m k v _ ih =>
    exact wf_updateInternalState { m with values := bagSet m.values k v } ih.1 ih.2
  | ofSetProperties m kvs _ ih =>
    unfold setProperties
    rw [setProperties_foldl]
    exact wf_updateInternalState { m with values := _ } ih.1 ih.2

/-- A machine never sent `setCurrentState` still has `currentState = null`. -/
theorem noSet_current_none (m : FiniteStateMachine) (h : ReachableNoSet m) :
    m.currentState = none := by
  induction h with
  | init => rfl
  | ofAddState m n _ ih => exact ih
  | ofFrom m n _ ih => exact ((from'_fields m n).2.1).trans ih
  | ofTo m r n _ ih => exact ((to'_fields m r n).2.1).trans ih
  | ofWhen m r g _ ih => exact ((modifyTrans_fields m r _).2.1).trans ih
  | ofSetProperty m k v _ ih =>
    show (updateInternalState { m with values := bagSet m.values k v }).1.currentState = none
    rw [updateInternalState_no_current { m with values := bagSet m.values k v } ih]
    exact ih
  | ofSetProperties m kvs _ ih =>
    show (setProperties m kvs).1.currentState = none
    unfold setProperties
    rw [setProperties_foldl]
    rw [updateInternalState_no_current
      { m with values := List.foldl (fun b p => bagSet b p.1 p.2) m.values kvs } ih]
    exact ih

/-! ## Concrete machines used to instantiate the theorems -/

/-- Guard used by transitions with no explicit `.when(...)` (and by tests):
always true. -/
def gAlways : Bag → Bool := fun _ => true

/-- Guard `v => v.velocityX !== 0` from the spec's concrete scenario. -/
def gRun : Bag → Bool := fun b => bagGet b "velocityX" != some (Val.num 0)

/-- Guard `v => v.a === 1 && v.b === 2`, a conjunction of two properties. -/
def gBoth : Bag → Bool := fun b =>
  bagGet b "a" == some (Val.num 1) && bagGet b "b" == some (Val.num 2)

/-- Idle/Running machine of the spec's concrete scenario, with the
`from('Idle').to('Running').when(gRun)` transition, current state `Idle`. -/
def demoM : FiniteStateMachine :=
  (setCurrentState
    (when (to' (from' (addState (addState initFSM "Idle") "Running") "Idle").1
      (0, 0) "Running").1 (0, 0) gRun) "Idle").1

def d2a : FiniteStateMachine :=
  addState (addState (addState initFSM "A") "B") "C"

/-- Machine with two transitions out of `A`, both with always-true guards:
first to `B`, then to `C`; current state `A`. -/
def demo2 : FiniteStateMachine :=
  (setCurrentState
    (when (to' (from'
      (when (to' (from' d2a "A").1 (0, 0) "B").1 (0, 0) gAlways)
      "A").1 (0, 1) "C").1 (0, 1) gAlways) "A").1

/-! ## The claims -/

/-- C1: for every machine with a transition declared by
`from(A).to(B).when(g)`, if the current state is `A`, the property bag after
the update satisfies `g`, and no earlier-registered transition from `A` has a
guard that evaluates true on that bag, then after a call to `setProperty` or
`setProperties` the current state is `B`. -/
theorem C1_guarded_transition_fires
    (m : FiniteStateMachine) (A B : String) (aid bid rid : Nat)
    (pre post : List Transition) (t : Transition)
    (k : String) (v : Val) (kvs : List (String × Val))
    (_hA : lookupReg m.states A = some aid)
    (_hAname : (getObj m aid).name = A)
    (hcur : m.currentState = some aid)
    (htrans : (getObj m aid).transitions = pre ++ t :: post)
    (hto : t.toState = some bid)
    (hBname : (getObj m bid).name = B)
    (hB : lookupReg m.states B = some rid)
    (hrname : (getObj m rid).name = B)
    (hg1 : t.validation (bagSet m.values k v) = true)
    (hpre1 : ∀ t' ∈ pre, t'.validation (bagSet m.values k v) = false)
    (hg2 : t.validation (List.foldl (fun b p => bagSet b p.1 p.2) m.values kvs) = true)
    (hpre2 : ∀ t' ∈ pre,
      t'.validation (List.foldl (fun b p => bagSet b p.1 p.2) m.values kvs) = false) :
    currentStateName (setProperty m k v).1 = .ok B ∧
    currentStateName (setProperties m kvs).1 = .ok B := by
  constructor
  · have hu := updateInternalState_fires { m with values := bagSet m.values k v }
      aid bid rid B pre post t hcur htrans hpre1 hg1 hto hBname hB
    show currentStateName
      (updateInternalState { m with values := bagSet m.values k v }).1 = .ok B
    rw [hu]
    show Except.ok (getObj m rid).name = .ok B
    rw [hrname]
  · have hu := updateInternalState_fires
      { m with values := List.foldl (fun b p => bagSet b p.1 p.2) m.values kvs }
      aid bid rid B pre post t hcur htrans hpre2 hg2 hto hBname hB
    show currentStateName (setProperties m kvs).1 = .ok B
    unfold setProperties
    rw [setProperties_foldl, hu]
    show Except.ok (getObj m rid).name = .ok B
    rw [hrname]

theorem C1_witness :
    currentStateName (setProperty demoM "velocityX" (Val.num 5)).1 = .ok "Running" ∧
    currentStateName (setProperties demoM [("velocityX", Val.num 5)]).1 = .ok "Running" :=
  C1_guarded_transition_fires demoM "Idle" "Running" 0 1 1 [] []
    ⟨gRun, some 0, some 1⟩ "velocityX" (Val.num 5) [("velocityX", Val.num 5)]
    rfl rfl rfl rfl rfl rfl rfl rfl rfl (by decide) rfl (by decide)

/-- C2: first-match-wins — with two fully-built transitions out of the
current state, registered in order `t1` (to `B1`) then `t2` (to `B2`), if
both guards hold on the same bag snapshot (and nothing registered before `t1`
matches), the evaluation pass lands on `t1`'s destination and never `t2`'s. -/
theorem C2_first_match_wins
    (m : FiniteStateMachine) (aid d1 d2 rid : Nat) (B1 B2 : String)
    (pre mid post : List Transition) (t1 t2 : Transition)
    (hcur : m.currentState = some aid)
    (htrans : (getObj m aid).transitions = pre ++ t1 :: (mid ++ t2 :: post))
    (hpre : ∀ t' ∈ pre, t'.validation m.values = false)
    (hg1 : t1.validation m.values = true)
    (_hg2 : t2.validation m.values = true)
    (hto1 : t1.toState = some d1)
    (_hto2 : t2.toState = some d2)
    (hname1 : (getObj m d1).name = B1)
    (_hname2 : (getObj m d2).name = B2)
    (hreg1 : lookupReg m.states B1 = some rid)
    (hrname : (getObj m rid).name = B1)
    (hne : B1 ≠ B2) :
    currentStateName (updateInternalState m).1 = .ok B1 ∧
    currentStateName (updateInternalState m).1 ≠ .ok B2 := by
  have hu := updateInternalState_fires m aid d1 rid B1 pre (mid ++ t2 :: post) t1
    hcur htrans hpre hg1 hto1 hname1 hreg1
  have hok : currentStateName (updateInternalState m).1 = .ok B1 := by
    rw [hu]
    show Except.ok (getObj m rid).name = .ok B1
    rw [hrname]
  refine ⟨hok, ?_⟩
  rw [hok]
  intro hc
  exact hne (by simpa using hc)

theorem C2_witness :
    currentStateName (updateInternalState demo2).1 = .ok "B" ∧
    currentStateName (updateInternalState demo2).1 ≠ .ok "C" :=
  C2_first_match_wins demo2 0 1 2 1 "B" "C" [] [] []
    ⟨gAlways, some 0, some 1⟩ ⟨gAlways, some 0, some 2⟩
    rfl rfl (by decide) rfl rfl rfl rfl rfl rfl rfl rfl (by decide)

/-- Off/On machine with a single transition guarded by the conjunction
`v.a === 1 && v.b === 2`; current state `Off`. -/
def demo3 : FiniteStateMachine :=
  (setCurrentState
    (when (to' (from' (addState (addState initFSM "Off") "On") "Off").1
      (0, 0) "On").1 (0, 0) gBoth) "Off").1

/-- C3: batch atomicity — `setProperties` writes all entries of the map into
the bag first and runs exactly one evaluation pass afterwards, on the machine
whose bag already holds the whole batch; in a two-entry batch over distinct
keys both entries are visible to that pass at once, whatever the bag held
before the call. -/
theorem C3_batch_atomicity
    (m : FiniteStateMachine) (kvs : List (String × Val))
    (a b : String) (va vb : Val) (hab : a ≠ b) :
    setProperties m kvs =
      updateInternalState
        { m with values := List.foldl (fun bag p => bagSet bag p.1 p.2) m.values kvs } ∧
    bagGet (List.foldl (fun bag p => bagSet bag p.1 p.2) m.values [(a, va), (b, vb)]) a
      = some va ∧
    bagGet (List.foldl (fun bag p => bagSet bag p.1 p.2) m.values [(a, va), (b, vb)]) b
      = some vb := by
  refine ⟨?_, ?_, ?_⟩
  · unfold setProperties
    rw [setProperties_foldl]
  · show bagGet (bagSet (bagSet m.values a va) b vb) a = some va
    rw [bagGet_bagSet_ne _ _ _ _ (Ne.symm hab)]
    exact bagGet_bagSet_self _ _ _
  · show bagGet (bagSet (bagSet m.values a va) b vb) b = some vb
    exact bagGet_bagSet_self _ _ _

theorem C3_witness :
    setProperties demo3 [("a", Val.num 1), ("b", Val.num 2)] =
      updateInternalState
        { demo3 with values := (List.foldl (fun bag p => bagSet bag p.1 p.2)
            demo3.values [("a", Val.num 1), ("b", Val.num 2)]) } ∧
    bagGet (List.foldl (fun bag p => bagSet bag p.1 p.2)
      demo3.values [("a", Val.num 1), ("b", Val.num 2)]) "a" = some (Val.num 1) ∧
    bagGet (List.foldl (fun bag p => bagSet bag p.1 p.2)
      demo3.values [("a", Val.num 1), ("b", Val.num 2)]) "b" = some (Val.num 2) :=
  C3_batch_atomicity demo3 [("a", Val.num 1), ("b", Val.num 2)]
    "a" "b" (Val.num 1) (Val.num 2) (by decide)

/-- C4: idempotence under no-match — if no transition of the current state
has a guard that holds on the bag produced by a `setProperty` or
`setProperties` call, `currentStateName` after the call equals
`currentStateName` before it. -/
theorem C4_no_match_unchanged
    (m : FiniteStateMachine) (aid : Nat) (k : String) (v : Val)
    (kvs : List (String × Val))
    (hcur : m.currentState = some aid)
    (hno1 : ∀ t ∈ (getObj m aid).transitions,
      t.validation (bagSet m.values k v) = false)
    (hno2 : ∀ t ∈ (getObj m aid).transitions,
      t.validation (List.foldl (fun b p => bagSet b p.1 p.2) m.values kvs) = false) :
    currentStateName (setProperty m k v).1 = currentStateName m ∧
    currentStateName (setProperties m kvs).1 = currentStateName m := by
  have hname : currentStateName m = .ok (getObj m aid).name := by
    simp [currentStateName, hcur]
  constructor
  · have hu := updateInternalState_no_match { m with values := bagSet m.values k v }
      aid hcur hno1
    show currentStateName
      (updateInternalState { m with values := bagSet m.values k v }).1
        = currentStateName m
    rw [hu, hname]
    simp [currentStateName, hcur, getObj]
  · have hu := updateInternalState_no_match
      { m with values := List.foldl (fun b p => bagSet b p.1 p.2) m.values kvs }
      aid hcur hno2
    show currentStateName (setProperties m kvs).1 = currentStateName m
    unfold setProperties
    rw [setProperties_foldl, hu, hname]
    simp [currentStateName, hcur, getObj]

theorem C4_witness :
    currentStateName (setProperty demoM "velocityX" (Val.num 0)).1
      = currentStateName demoM ∧
    currentStateName (setProperties demoM [("velocityX", Val.num 0)]).1
      = currentStateName demoM :=
  C4_no_match_unchanged demoM 0 "velocityX" (Val.num 0)
    [("velocityX", Val.num 0)] rfl (by decide) (by decide)

/-- C5: calling `from`, `TransitionBuilder.to`, or `setCurrentState` with a
state name that was never registered raises the unknown-state error (the
spec's `UnknownStateError`) and leaves the machine — in particular its
current state — exactly as it was. -/
theorem C5_unknown_state
    (m : FiniteStateMachine) (n : String) (r : Nat × Nat)
    (h : lookupReg m.states n = none) :
    from' m n = (m, .error (.unknownState n)) ∧
    to' m r n = (m, some (.unknownState n)) ∧
    setCurrentState m n = (m, some (.unknownState n)) := by
  refine ⟨?_, ?_, ?_⟩ <;> simp only [from', to', setCurrentState, getState, h]

theorem C5_witness :
    from' demoM "Missing" = (demoM, .error (.unknownState "Missing")) ∧
    to' demoM (0, 0) "Missing" = (demoM, some (.unknownState "Missing")) ∧
    setCurrentState demoM "Missing" = (demoM, some (.unknownState "Missing")) :=
  C5_unknown_state demoM "Missing" (0, 0) (by decide)

/-! ## Builder computation lemmas -/

/-- What `from(A)` does when `A` is registered: it returns the builder for
position `|transitions|` of `A`'s list, and that list has gained, at its end,
a transition with the default always-true guard and a `null` destination. -/
theorem from'_appends (m : FiniteStateMachine) (A : String) (aid : Nat)
    (hA : lookupReg m.states A = some aid) (haid : aid < m.objs.length) :
    (from' m A).2 = .ok (aid, (getObj m aid).transitions.length) ∧
    (from' m A).1.states = m.states ∧
    (from' m A).1.currentState = m.currentState ∧
    (getObj (from' m A).1 aid).transitions
      = (getObj m aid).transitions ++ [⟨fun _ => true, some aid, none⟩] := by
  have he : from' m A =
      ({ m with objs := m.objs.set aid { getObj m aid with
          transitions := (getObj m aid).transitions
            ++ [⟨fun _ => true, some aid, none⟩] } },
       .ok (aid, (getObj m aid).transitions.length)) := by
    unfold from' getState
    rw [hA]
  rw [he]
  refine ⟨rfl, rfl, rfl, ?_⟩
  simp only [getObj]
  rw [getD_set_self _ _ _ _ haid]

/-- What `.to(B)` does when `B` is registered: it binds the destination of
the referenced transition. -/
theorem to'_binds (m : FiniteStateMachine) (r : Nat × Nat) (B : String) (bid : Nat)
    (hB : lookupReg m.states B = some bid) :
    to' m r B = (modifyTrans m r (fun t => { t with toState := some bid }), none) := by
  unfold to' getState
  rw [hB]

theorem modifyTrans_last (m : FiniteStateMachine) (aid : Nat) (pre : List Transition)
    (t : Transition) (f : Transition → Transition) (haid : aid < m.objs.length)
    (htr : (getObj m aid).transitions = pre ++ [t]) :
    (getObj (modifyTrans m (aid, pre.length) f) aid).transitions = pre ++ [f t] := by
  simp only [modifyTrans, getObj]
  rw [getD_set_self _ _ _ _ haid]
  show modifyAt f pre.length (m.objs.getD aid ⟨"", []⟩).transitions = pre ++ [f t]
  show modifyAt f pre.length (getObj m aid).transitions = pre ++ [f t]
  rw [htr, modifyAt_append_self]

/-- Machine with two transitions out of `A`: first the one declared by
`from('A').to('B')` with no `.when(...)` call (default guard), then a
later-registered guarded transition to `C`; current state `A`. -/
def demo6 : FiniteStateMachine :=
  (setCurrentState
    (when (to' (from' (to' (from' d2a "A").1 (0, 0) "B").1 "A").1 (0, 1) "C").1
      (0, 1) gAlways) "A").1

/-- C6: a transition declared without `.when(...)` keeps the constant-true
default guard installed by the builder, so — its destination being bound and
nothing registered before it matching — it fires on an evaluation pass run
while its origin is current, whatever the bag holds, pre-empting every
later-registered transition of that origin. -/
theorem C6_default_guard
    (m : FiniteStateMachine) (A B : String) (aid bid : Nat)
    (m' : FiniteStateMachine) (aid' bid' rid' : Nat) (B' : String)
    (pre post : List Transition) (t : Transition)
    (hA : lookupReg m.states A = some aid)
    (haid : aid < m.objs.length)
    (hB : lookupReg m.states B = some bid)
    (hcur' : m'.currentState = some aid')
    (htrans' : (getObj m' aid').transitions = pre ++ t :: post)
    (hval : t.validation = fun _ => true)
    (hto : t.toState = some bid')
    (hpre : ∀ t' ∈ pre, t'.validation m'.values = false)
    (hname : (getObj m' bid').name = B')
    (hreg : lookupReg m'.states B' = some rid')
    (hrname : (getObj m' rid').name = B') :
    (getObj (to' (from' m A).1 (aid, (getObj m aid).transitions.length) B).1
        aid).transitions
      = (getObj m aid).transitions ++ [⟨fun _ => true, some aid, some bid⟩] ∧
    currentStateName (updateInternalState m').1 = .ok B' := by
  constructor
  · obtain ⟨hr, hs1, hc1, htr1⟩ := from'_appends m A aid hA haid
    rw [to'_binds (from' m A).1 _ B bid (by rw [hs1]; exact hB)]
    have hlen1 : (from' m A).1.objs.length = m.objs.length := (from'_fields m A).2.2.1
    have hm := modifyTrans_last (from' m A).1 aid (getObj m aid).transitions
      ⟨fun _ => true, some aid, none⟩ (fun t => { t with toState := some bid })
      (by rw [hlen1]; exact haid) htr1
    simpa using hm
  · have hgt : t.validation m'.values = true := by rw [hval]
    have hu := updateInternalState_fires m' aid' bid' rid' B' pre post t
      hcur' htrans' hpre hgt hto hname hreg
    rw [hu]
    show Except.ok (getObj m' rid').name = .ok B'
    rw [hrname]

theorem C6_witness :
    (getObj (to' (from' d2a "A").1 (0, (getObj d2a 0).transitions.length) "B").1
        0).transitions
      = (getObj d2a 0).transitions ++ [⟨fun _ => true, some 0, some 1⟩] ∧
    currentStateName (updateInternalState demo6).1 = .ok "B" :=
  C6_default_guard d2a "A" "B" 0 1 demo6 0 1 1 "B" []
    [⟨gAlways, some 0, some 2⟩] ⟨fun _ => true, some 0, some 1⟩
    rfl (by decide) rfl rfl rfl rfl rfl (by decide) rfl rfl rfl

/-- Machine whose `A` state carries first a half-built transition (declared
by `from('A')` alone: default guard, unbound destination) and then a
later-registered, fully-built transition to `B`; current state `A`. -/
def demo10 : FiniteStateMachine :=
  (setCurrentState
    (when (to' (from' (from' d2a "A").1 "A").1 (0, 1) "B").1 (0, 1) gAlways) "A").1

/-- C10: `from(name)` appends the new transition to the origin's list before
`.to`/`.when` run, with a constant-true guard and a `null` destination; a
`.to("missing")` call that raises leaves it unbound; and an evaluation pass
reaching such an unbound transition (its guard matching) stops there, leaves
the machine — in particular its current state — unchanged, and never
evaluates any transition registered after it in that origin's list. -/
theorem C10_half_built_transition
    (m : FiniteStateMachine) (A miss : String) (aid : Nat)
    (m' : FiniteStateMachine) (aid' : Nat) (pre post : List Transition)
    (t : Transition)
    (hA : lookupReg m.states A = some aid)
    (haid : aid < m.objs.length)
    (hmiss : lookupReg m.states miss = none)
    (hcur' : m'.currentState = some aid')
    (htrans' : (getObj m' aid').transitions = pre ++ t :: post)
    (hpre : ∀ t' ∈ pre, t'.validation m'.values = false)
    (ht : t.validation m'.values = true)
    (hto : t.toState = none) :
    (from' m A).2 = .ok (aid, (getObj m aid).transitions.length) ∧
    (getObj (from' m A).1 aid).transitions
      = (getObj m aid).transitions ++ [⟨fun _ => true, some aid, none⟩] ∧
    to' (from' m A).1 (aid, (getObj m aid).transitions.length) miss
      = ((from' m A).1, some (.unknownState miss)) ∧
    updateInternalState m' = (m', none) := by
  obtain ⟨hr, hs1, hc1, htr1⟩ := from'_appends m A aid hA haid
  refine ⟨hr, htr1, ?_, ?_⟩
  · have hm : lookupReg (from' m A).1.states miss = none := by
      rw [hs1]; exact hmiss
    unfold to' getState
    rw [hm]
  · have hc := checkForTransitions_first_match m'.values pre post t hpre ht
    rw [hto] at hc
    simp only [updateInternalState, hcur', htrans', hc]

theorem C10_witness :
    (from' d2a "A").2 = .ok (0, (getObj d2a 0).transitions.length) ∧
    (getObj (from' d2a "A").1 0).transitions
      = (getObj d2a 0).transitions ++ [⟨fun _ => true, some 0, none⟩] ∧
    to' (from' d2a "A").1 (0, (getObj d2a 0).transitions.length) "Missing"
      = ((from' d2a "A").1, some (.unknownState "Missing")) ∧
    updateInternalState demo10 = (demo10, none) :=
  C10_half_built_transition d2a "A" "Missing" 0 demo10 0 []
    [⟨gAlways, some 0, some 1⟩] ⟨fun _ => true, some 0, none⟩
    rfl (by decide) rfl rfl rfl (by decide) rfl rfl

/-- The trace `addState('B'); setCurrentState('B'); addState('B')`:
re-registering `B` replaces the registry's object while `currentState` still
holds the old one. -/
def cexM : FiniteStateMachine :=
  addState (setCurrentState (addState initFSM "B") "B").1 "B"

/-- C7 counterexample: a machine state reachable by
`addState('B'); setCurrentState('B'); addState('B')` in which the current
`State` (object 0) is not the object the registry stores under its name
(object 1) — the claim's invariant `CurrentWF` fails on a reachable state. -/
theorem C7_counterexample :
    Reachable cexM ∧
    cexM.currentState = some 0 ∧
    lookupReg cexM.states ((getObj cexM 0).name) = some 1 ∧
    ¬ CurrentWF cexM := by
  refine ⟨?_, rfl, rfl, ?_⟩
  · exact Reachable.ofAddState _ _
      (Reachable.ofSetCurrentState _ _ (Reachable.ofAddState _ _ Reachable.init))
  · intro hwf
    have h2 := (hwf 0 rfl).2
    exact absurd h2 (by decide)

/-- C7 (amended): in every reachable machine state there is at most one
current `State`; and provided `addState` is never called with a name that is
already registered, the current `State`, whenever set, is exactly the object
the machine's registry stores under its name (`CurrentWF`). -/
theorem C7_amended_invariant (m : FiniteStateMachine) (h : ReachableD m) :
    (∀ i j, m.currentState = some i → m.currentState = some j → i = j) ∧
    CurrentWF m := by
  refine ⟨fun i j hi hj => ?_, (reachD_wf m h).2⟩
  rw [hi] at hj
  exact Option.some.inj hj

/-- The trace `addState('A'); setCurrentState('A')`, with no duplicate
registration. -/
def mD : FiniteStateMachine := (setCurrentState (addState initFSM "A") "A").1

theorem C7_witness :
    (∀ i j, mD.currentState = some i → mD.currentState = some j → i = j) ∧
    CurrentWF mD :=
  C7_amended_invariant mD
    (ReachableD.ofSetCurrentState _ _ (ReachableD.ofAddState _ _ rfl ReachableD.init))

/-- C8: on a machine on which `setCurrentState` has never been called,
reading `currentStateName` raises the no-current-state error (the spec's
`NoCurrentStateError`) rather than returning a value, and so does the
evaluation pass triggered by `setProperty` or `setProperties`. -/
theorem C8_no_current_state (m : FiniteStateMachine) (k : String) (v : Val)
    (kvs : List (String × Val)) (h : ReachableNoSet m) :
    currentStateName m = .error .noCurrentState ∧
    (setProperty m k v).2 = some .noCurrentState ∧
    (setProperties m kvs).2 = some .noCurrentState := by
  have hc := noSet_current_none m h
  refine ⟨by simp [currentStateName, hc], ?_, ?_⟩
  · show (updateInternalState { m with values := bagSet m.values k v }).2 = _
    rw [updateInternalState_no_current { m with values := bagSet m.values k v } hc]
  · show (setProperties m kvs).2 = _
    unfold setProperties
    rw [setProperties_foldl]
    rw [updateInternalState_no_current
      { m with values := List.foldl (fun b p => bagSet b p.1 p.2) m.values kvs } hc]

theorem C8_witness :
    currentStateName (addState initFSM "A") = .error .noCurrentState ∧
    (setProperty (addState initFSM "A") "x" (Val.bool true)).2
      = some .noCurrentState ∧
    (setProperties (addState initFSM "A") [("x", Val.bool true)]).2
      = some .noCurrentState :=
  C8_no_current_state (addState initFSM "A") "x" (Val.bool true)
    [("x", Val.bool true)]
    (ReachableNoSet.ofAddState _ _ ReachableNoSet.init)

/-- C9: on a machine with a current state, `isOneOf(names...)` returns `true`
exactly when `currentStateName` is one of the given names, and `false`
exactly when it is none of them. -/
theorem C9_isOneOf_iff (m : FiniteStateMachine) (id : Nat) (names : List String)
    (hcur : m.currentState = some id) :
    currentStateName m = .ok (getObj m id).name ∧
    (isOneOf m names = .ok true ↔ (getObj m id).name ∈ names) ∧
    (isOneOf m names = .ok false ↔ (getObj m id).name ∉ names) := by
  refine ⟨by simp [currentStateName, hcur], ?_⟩
  induction names with
  | nil => simp [isOneOf]
  | cons n ns ih =>
    have his : is m n = .ok ((getObj m id).name == n) := by simp [is, hcur]
    by_cases he : (getObj m id).name = n
    · rw [show ((getObj m id).name == n) = true by simpa using he] at his
      simp [isOneOf, his, he]
    · rw [show ((getObj m id).name == n) = false by simpa using he] at his
      simp only [isOneOf, his]
      simp [List.mem_cons, he, ih.1, ih.2]

theorem C9_witness :
    currentStateName demoM = .ok (getObj demoM 0).name ∧
    (isOneOf demoM ["Running", "Idle"] = .ok true
      ↔ (getObj demoM 0).name ∈ ["Running", "Idle"]) ∧
    (isOneOf demoM ["Running", "Idle"] = .ok false
      ↔ (getObj demoM 0).name ∉ ["Running", "Idle"]) :=
  C9_isOneOf_iff demoM 0 ["Running", "Idle"] rfl

end Grace
